import Mathlib

/-!
Verification of the ironmind backend core services against their
natural-language specification.  Each Python service function that the
claims mention is shallowly embedded as an executable Lean definition;
external collaborators (HTTP services, the tiktoken encoder, the graph
database, wall-clock time) are passed in as explicit parameters or
outcome oracles, mirroring the call sites in the source.
-/

set_option autoImplicit false

namespace IronMind

/-! ## Python string helpers

Executable renderings of the Python `str` operations the services use:
`str.lower`, `str.strip`, whitespace splitting, and the substring test
`needle in haystack`. -/

/-- Python `str.lower()` (ASCII case folding, which is all the source data uses). -/
def pyLower (s : String) : String :=
  String.mk (s.data.map Char.toLower)

/-- Python `str.strip()`: drop leading and trailing whitespace (on the
character list, so the kernel can evaluate it). -/
def pyStrip (s : String) : String :=
  String.mk
    (((s.data.dropWhile Char.isWhitespace).reverse.dropWhile Char.isWhitespace).reverse)

/-- `startsWithL needle hay`: the char list `hay` starts with `needle`. -/
def startsWithL : List Char → List Char → Bool
  | [], _ => true
  | _ :: _, [] => false
  | a :: as, b :: bs => a == b && startsWithL as bs

/-- Python `needle in haystack` on strings, as char lists:
`needle` occurs contiguously inside `hay` (the empty needle always occurs). -/
def containsSeq (needle : List Char) : List Char → Bool
  | [] => needle.isEmpty
  | b :: bs => startsWithL needle (b :: bs) || containsSeq needle bs

/-- Worker for Python `str.split()`: `cur` is the current word reversed;
whitespace ends a word, runs collapse, no empty words are produced. -/
def splitWsAux : List Char → List Char → List String
  | cur, [] => if cur.isEmpty then [] else [String.mk cur.reverse]
  | cur, c :: cs =>
    if c.isWhitespace then
      if cur.isEmpty then splitWsAux [] cs
      else String.mk cur.reverse :: splitWsAux [] cs
    else splitWsAux (c :: cur) cs

/-- Python `str.split()` with no argument: split on whitespace runs,
discarding empty pieces. -/
def pySplitWs (s : String) : List String :=
  splitWsAux [] s.data

/-! ## Reranker (`app/services/reranker.py`)

`Reranker.rerank` is embedded as a total function.  The external
cross-encoder call (`litellm.rerank`) is an oracle `call`: either an
exception (any failure: timeout, error response, bad payload) or a list
of `(index, relevance_score)` results.  Wall-clock latency for the
measured paths is the parameter `elapsed`.  The model makes at most one
oracle call by construction — the source has no retry loop — and the
`service_called` field records whether the path containing the external
call was entered. -/

/-- A retrieval chunk as the reranker sees it (`dict` in the source; only
the fields the reranker reads/writes are kept).  `rerank_score`/`rerank_rank`
are `none` until the reranker adds them. -/
structure RChunk where
  text : String
  rerank_score : Option ℚ := none
  rerank_rank : Option Nat := none
  deriving Repr, DecidableEq

/-- Result dictionary of `Reranker.rerank`. -/
structure RerankResult where
  chunks : List RChunk
  count : Nat
  latency_ms : Nat
  /-- Instrumentation: whether the external rerank call was issued. -/
  service_called : Bool
  deriving Repr, DecidableEq

/-- The body of the `try:` block of `Reranker.rerank` after the external
call returned `results`: map each result `(index, score)` back to the
original chunk; an out-of-range index is Python's `IndexError`, which the
surrounding `except` catches. -/
def rerankMapResults (chunks : List RChunk) :
    List (Nat × ℚ) → Nat → Except String (List RChunk)
  | [], _ => .ok []
  | (i, s) :: rest, rank =>
    match chunks.get? i with
    | none => .error "IndexError"
    | some c => do
      let tail ← rerankMapResults chunks rest (rank + 1)
      .ok ({ c with rerank_score := some s, rerank_rank := some (rank + 1) } :: tail)

/-- `Reranker.rerank(query, chunks, request_id, top_k)`.

* `apiKey`: whether `settings.DEEPINFRA_API_KEY` is non-empty;
* `top_k`: the optional argument, defaulted to `rerankLimit`
  (`settings.RERANK_LIMIT`) when `none`;
* `call`: outcome of the single `litellm.rerank` call;
* `elapsed`: measured latency for the paths that time the call. -/
def rerank (chunks : List RChunk) (apiKey : Bool) (top_k : Option Nat)
    (rerankLimit : Nat) (call : Except String (List (Nat × ℚ))) (elapsed : Nat) :
    RerankResult :=
  -- Handle empty input
  if chunks.isEmpty then
    { chunks := [], count := 0, latency_ms := 0, service_called := false }
  -- Check API key is set
  else if ¬ apiKey then
    { chunks := chunks, count := chunks.length, latency_ms := 0, service_called := false }
  else
    let topK := top_k.getD rerankLimit
    match call >>= fun results => rerankMapResults chunks results 0 with
    | .ok reranked =>
      { chunks := reranked, count := reranked.length, latency_ms := elapsed,
        service_called := true }
    | .error _ =>
      -- Graceful fallback: return original chunks without reranking
      { chunks := chunks.take topK, count := (chunks.take topK).length,
        latency_ms := elapsed, service_called := true }

/-! ## Answer generation (`app/services/generator.py`)

Chunks reach the generator as loosely-typed dicts; the embedded record
keeps the fields the generator reads.  Absent dict keys are modelled by
the defaults the source's `.get` calls supply (`''` for `doc_id`, absent
`source` collapses to `""`, which like `None` differs from `'graph'`). -/

/-- A chunk as seen by `should_activate_synthesis_mode` / `Generator.generate`. -/
structure GChunk where
  doc_id : String := ""
  source : String := ""
  text : String := ""
  filename : String := ""
  deriving Repr, DecidableEq

/-- The `doc_chunk_counts` dict built by `should_activate_synthesis_mode`,
as an insertion-ordered association list (Python dicts preserve insertion
order; only the multiset of values is consumed). -/
def docChunkCounts : List GChunk → List (String × Nat) → List (String × Nat)
  | [], acc => acc
  | c :: rest, acc =>
    -- Skip graph-derived chunks for synthesis trigger
    if c.source = "graph" then
      docChunkCounts rest acc
    else
      docChunkCounts rest (bumpCount acc c.doc_id)
where
  /-- `d[k] = d.get(k, 0) + 1` on an insertion-ordered assoc list. -/
  bumpCount : List (String × Nat) → String → List (String × Nat)
    | [], k => [(k, 1)]
    | (k', n) :: rest, k =>
      if k' = k then (k', n + 1) :: rest else (k', n) :: bumpCount rest k

/-- `should_activate_synthesis_mode(chunks)`. -/
def shouldActivateSynthesisMode (chunks : List GChunk) : Bool :=
  if chunks.isEmpty then false
  else
    let counts := docChunkCounts chunks []
    -- Require 2+ documents with 2+ chunks each
    let multiChunkDocs := (counts.filter (fun kv => 2 ≤ kv.2)).length
    2 ≤ multiChunkDocs

/-- The non-graph chunks of a list (the ones the synthesis trigger counts). -/
def nonGraph (chunks : List GChunk) : List GChunk :=
  chunks.filter (fun c => c.source ≠ "graph")

/-- A citation object (`app/models/chat.py`); opaque payload here since the
claims only inspect the citations *list*. -/
structure Citation where
  id : Nat
  doc_id : String
  deriving Repr, DecidableEq

/-- Result dictionary of `Generator.generate`. -/
structure GenerateResult where
  answer : String
  citations : List Citation
  latency_ms : Nat
  tokens_used : Nat
  synthesis_mode : Bool
  source_doc_count : Nat
  /-- Instrumentation: whether any chat-completion call was issued. -/
  model_called : Bool
  deriving Repr, DecidableEq

/-- Outcome of the chat-completion interaction of `Generator.generate`
(primary call plus its in-code fallback-model retry): either the final
answer text with a token count, or the exception that escaped. -/
inductive GenCallOutcome where
  | ok (answer : String) (tokens : Nat)
  | err (msg : String)
  deriving Repr, DecidableEq

/-- `Generator.generate(query, chunks, request_id, history)`.

`callOutcome` is the oracle for the OpenAI interaction; `buildCitations`
stands for `Generator._build_citations` (regex post-processing, applied to
the chunks, the answer and the synthesis flag); `elapsed` is wall-clock
latency.  A generation failure is re-raised to the caller (`Except.error`). -/
def generate (chunks : List GChunk) (callOutcome : GenCallOutcome)
    (buildCitations : List GChunk → String → Bool → List Citation)
    (elapsed : Nat) : Except String GenerateResult :=
  -- Handle empty/low context
  if chunks.isEmpty then
    .ok { answer := "I cannot find relevant information in the uploaded documents.",
          citations := [], latency_ms := elapsed, tokens_used := 0,
          synthesis_mode := false, source_doc_count := 0, model_called := false }
  else
    -- Detect synthesis mode
    let synthesisMode := shouldActivateSynthesisMode chunks
    let sourceDocCount := ((nonGraph chunks).map GChunk.doc_id).dedup.length
    match callOutcome with
    | .ok answer tokens =>
      .ok { answer := answer,
            citations := buildCitations chunks answer synthesisMode,
            latency_ms := elapsed, tokens_used := tokens,
            synthesis_mode := synthesisMode, source_doc_count := sourceDocCount,
            model_called := true }
    | .err msg => .error ("Failed to generate answer: " ++ msg)

/-! ## Hybrid retrieval merge (`app/services/retriever.py`)

`HybridRetriever._merge_channels`.  Chunk dicts carry `text` (semantic
channel) and `entity_name` (graph channel); `.get` defaults make both
total. -/

/-- A chunk as `_merge_channels` sees it. -/
structure MChunk where
  text : String := ""
  entity_name : String := ""
  deriving Repr, DecidableEq

/-- The graph-chunk loop of `_merge_channels`: append graph chunks whose
entity name is not a substring of `semText`, stopping once the merged
length reaches `cap` (checked after each append, like the source's
`break`). -/
def mergeGo (semText : List Char) (cap : Nat) :
    List MChunk → List MChunk → List MChunk
  | merged, [] => merged
  | merged, g :: rest =>
    -- Skip if entity already covered in semantic chunks
    if containsSeq (pyLower g.entity_name).data semText then
      mergeGo semText cap merged rest
    else
      let merged' := merged ++ [g]
      -- Maintain limit (don't exceed 2x original limit)
      if cap ≤ merged'.length then merged'
      else mergeGo semText cap merged' rest

/-- The lowercased concatenation (space-joined) of the semantic chunks'
texts, against which graph entity names are tested. -/
def semanticText (semantic : List MChunk) : List Char :=
  (pyLower (String.intercalate " " (semantic.map MChunk.text))).data

/-- `HybridRetriever._merge_channels(semantic, graph)`. -/
def mergeChannels (semantic graph : List MChunk) : List MChunk :=
  mergeGo (semanticText semantic) (semantic.length * 2) semantic graph

/-! ## Cross-document relationship detection (`app/services/graph/cross_reference.py`)

The detector's two signals.  The graph store lookup
`GraphStore.list_entities_for_doc` is a parameter `entitiesFor` mapping a
document id to the entity names stored for it; the fuzzy-similarity
function (`Levenshtein.ratio`, an external library with an in-source
fallback) is a parameter `ratio` valued in `ℚ`.  Strengths are `ℚ` as
well: for the values this code produces (`0.5 + k*0.1` for `k ≤ 5`,
capped at `0.9`) Python's float arithmetic agrees exactly with the
rational arithmetic, so nothing is lost. -/

/-- `ACRONYM_MAP` from `app/services/retriever.py` (imported and used by the
cross-reference detector for alias expansion). -/
def ACRONYM_MAP : List (String × String) :=
  [("UAV", "Unmanned Aerial Vehicle"),
   ("IMU", "Inertial Measurement Unit"),
   ("GPS", "Global Positioning System"),
   ("INS", "Inertial Navigation System"),
   ("GNSS", "Global Navigation Satellite System"),
   ("RADAR", "Radio Detection and Ranging"),
   ("LIDAR", "Light Detection and Ranging"),
   ("EO", "Electro-Optical"),
   ("IR", "Infrared"),
   ("RF", "Radio Frequency"),
   ("C2", "Command and Control"),
   ("ISR", "Intelligence Surveillance Reconnaissance"),
   ("SATCOM", "Satellite Communications"),
   ("MTBF", "Mean Time Between Failures"),
   ("SWaP", "Size Weight and Power")]

/-- The names contributed by a single entity in
`CrossReferenceDetector._normalize_entity_names`: the lowercased name,
the lowercased expansion when the original name is an acronym-table key,
and every acronym whose expansion equals the lowercased name. -/
def normalizeOne (name : String) : Finset String :=
  let lower := pyLower name
  ({lower} : Finset String)
    ∪ (match ACRONYM_MAP.lookup name with
       | some expansion => {pyLower expansion}
       | none => ∅)
    ∪ ((ACRONYM_MAP.filter (fun kv => pyLower kv.2 = lower)).map
        (fun kv => pyLower kv.1)).toFinset

/-- `CrossReferenceDetector._normalize_entity_names(entities)`: the set of
normalized names (entities are dicts; only `entity["name"]` is read). -/
def normalizeEntityNames (entities : List String) : Finset String :=
  entities.foldl (fun acc name => acc ∪ normalizeOne name) ∅

/-- A shared-entity reference produced by `_detect_shared_entities`
(the `shared_entities` evidence list is capped at 10 in the source and is
set-iteration-ordered; only its underlying set matters, kept here as the
intersection itself). -/
structure SharedRef where
  target_doc_id : String
  strength : ℚ
  shared : Finset String
  deriving DecidableEq

/-- One iteration of the `_detect_shared_entities` candidate loop:
skip the document itself and documents without stored entities, and emit
a ref when the normalized name sets share at least 2 members
(`strength = min(0.5 + (count - 2) * 0.1, 0.9)`; exact in `ℚ`, and
Python's float arithmetic yields the same decimal values here). -/
def sharedEntityStep (entitiesFor : String → List String) (doc_id : String)
    (source_names : Finset String) (target : String) (acc : List SharedRef) :
    List SharedRef :=
  if target = doc_id then acc
  else
    let target_entities := entitiesFor target
    if target_entities.isEmpty then acc
    else
      let target_names := normalizeEntityNames target_entities
      let shared := source_names ∩ target_names
      -- Require 2+ shared entities
      if 2 ≤ shared.card then
        { target_doc_id := target,
          strength := min (1/2 + ((shared.card : ℚ) - 2) * (1/10)) (9/10),
          shared := shared } :: acc
      else acc

/-- `CrossReferenceDetector._detect_shared_entities(doc_id, user_id, existing_docs)`.
`entitiesFor d` models `GraphStore.list_entities_for_doc(d, user_id)`
(the entity names stored for document `d`). -/
def detectSharedEntities (entitiesFor : String → List String)
    (doc_id : String) (existing_docs : List String) : List SharedRef :=
  let source_entities := entitiesFor doc_id
  if source_entities.isEmpty then []
  else
    existing_docs.foldr
      (sharedEntityStep entitiesFor doc_id (normalizeEntityNames source_entities)) []

/-- Candidate document record handed to the detector (`{doc_id, filename}`). -/
structure DocInfo where
  doc_id : String
  filename : String
  deriving Repr, DecidableEq

/-- An explicit-citation reference (`refs` entries of
`_detect_explicit_references`). -/
structure ExplicitRef where
  target_doc_id : String
  citation_text : String
  similarity : ℚ
  deriving Repr, DecidableEq

/-- Strip the filename extension as the source's `re.sub(r'\.[^.]+$', '', f)`
does: drop a final `.`‑plus‑non‑dot‑chars suffix when present. -/
def stripExtension (s : String) : String :=
  match go s.data.reverse with
  | some kept => String.mk kept.reverse
  | none => s
where
  /-- On the reversed char list: drop a nonempty run of non-dot chars
  followed by `'.'`; `none` when the pattern does not match. -/
  go : List Char → Option (List Char)
    | [] => none
    | c :: rest =>
      if c = '.' then none
      else goAfter rest
  goAfter : List Char → Option (List Char)
    | [] => none
    | c :: rest => if c = '.' then some rest else goAfter rest

/-- The inner candidate loop of `_detect_explicit_references` for one
mention: return a ref for the first document (in list order) whose
extension-stripped lowercased filename either has `ratio > 0.7` with the
cleaned mention or contains/is contained in it; `none` when no candidate
matches. -/
def findRefForMention (ratio : String → String → ℚ) (mention : String) :
    List DocInfo → Option ExplicitRef
  | [] => none
  | doc :: rest =>
    let mention_clean := pyLower (pyStrip mention)
    let filename_base := stripExtension (pyLower doc.filename)
    -- Fuzzy match (70% similarity threshold, strict)
    if 7/10 < ratio mention_clean filename_base then
      some { target_doc_id := doc.doc_id, citation_text := mention,
             similarity := ratio mention_clean filename_base }
    -- Also check if mention appears in filename (or vice versa)
    else if containsSeq mention_clean.data filename_base.data
         || containsSeq filename_base.data mention_clean.data then
      some { target_doc_id := doc.doc_id, citation_text := mention,
             similarity := 8/10 }
    else findRefForMention ratio mention rest

/-- The final deduplication pass of `_detect_explicit_references`: keep the
first ref for each `target_doc_id`. -/
def dedupRefs : List ExplicitRef → List String → List ExplicitRef
  | [], _ => []
  | r :: rest, seen =>
    if r.target_doc_id ∈ seen then dedupRefs rest seen
    else r :: dedupRefs rest (r.target_doc_id :: seen)

/-- `CrossReferenceDetector._detect_explicit_references(text, existing_docs)`,
from the mention list onward.  `mentions` is the concatenation of the
`DOC_CODE_PATTERN`, `SEE_DOC_PATTERN` and `SECTION_REF_PATTERN` regex
matches over the document text (regex extraction is outside the model;
every claim here is about what happens to the matched mentions). -/
def detectExplicitReferences (ratio : String → String → ℚ)
    (mentions : List String) (existing_docs : List DocInfo) : List ExplicitRef :=
  dedupRefs (mentions.filterMap (fun m => findRefForMention ratio m existing_docs)) []

/-- A document-to-document relationship (`app/services/graph/schemas.py`). -/
structure DocumentRelationship where
  source_doc_id : String
  target_doc_id : String
  relationship_type : String
  strength : ℚ
  deriving Repr, DecidableEq

/-- The explicit-citation half of
`CrossReferenceDetector.detect_cross_references`: each explicit ref
becomes an `explicit_citation` relationship of strength 1.0. -/
def explicitRelationships (doc_id : String) (refs : List ExplicitRef) :
    List DocumentRelationship :=
  refs.map (fun ref =>
    { source_doc_id := doc_id, target_doc_id := ref.target_doc_id,
      relationship_type := "explicit_citation", strength := 1 })

/-- The in-source fallback `levenshtein_ratio` (used when the Levenshtein
library is absent): `0` when either string is empty, else
`1 - |len₁ - len₂| / max len₁ len₂`. -/
def fallbackRatio (s1 s2 : String) : ℚ :=
  if s1 = "" ∨ s2 = "" then 0
  else 1 - (((s1.length : ℤ) - (s2.length : ℤ)).natAbs : ℚ)
    / ((max s1.length s2.length : Nat) : ℚ)

/-! ## Docling client retry (`app/services/docling_client.py`)

`DoclingClient.parse_document` is wrapped in
`@backoff.on_exception(backoff.expo, (httpx.TimeoutException,
httpx.NetworkError), max_tries=3, max_time=180, ...)`.  The HTTP exchange
is an oracle `attempt : Nat → HttpOutcome` giving the outcome of every
successive call; the backoff combinator is modelled by attempt counting
(the `max_time` wall-clock budget and the exponential wait times are real
time and not modelled — they only make the attempt bound tighter). -/

/-- Outcome of one POST to the docling-serve convert endpoint. -/
inductive HttpOutcome where
  | success (page_count : Nat)
  | timeout
  | networkError
  | status (code : Nat)
  deriving Repr, DecidableEq

/-- The exceptions that can escape `parse_document`'s body. -/
inductive DoclingExc where
  /-- `DoclingParseError` (a `DoclingError`). -/
  | parseError (msg : String)
  /-- `httpx.TimeoutException`. -/
  | timeoutExc
  /-- `httpx.NetworkError`. -/
  | networkExc
  /-- `httpx.HTTPStatusError` re-raised from `raise_for_status`. -/
  | statusExc (code : Nat)
  deriving Repr, DecidableEq

/-- Parse result as far as the pipeline claims need it. -/
structure ParseResult where
  page_count : Nat
  deriving Repr, DecidableEq

/-- The undecorated body of `DoclingClient.parse_document` for one HTTP
exchange: a 4xx from `raise_for_status` is converted to the permanent
`DoclingParseError`, a 5xx is re-raised as the `HTTPStatusError` itself
(`raise  # Let backoff handle 5xx`), timeouts and network errors
propagate. -/
def parseDocumentBody : HttpOutcome → Except DoclingExc ParseResult
  | .success pages => .ok { page_count := pages }
  | .timeout => .error .timeoutExc
  | .networkError => .error .networkExc
  | .status code =>
    if code < 500 then .error (.parseError s!"Docling parse failed: {code}")
    else .error (.statusExc code)

/-- Which exceptions `backoff.on_exception` is configured to retry:
exactly `(httpx.TimeoutException, httpx.NetworkError)`. -/
def backoffRetries : DoclingExc → Bool
  | .timeoutExc => true
  | .networkExc => true
  | _ => false

/-- `backoff.on_exception(..., max_tries=3)` around the body: run attempt
`n`; on a retried exception start attempt `n+1` while fewer than
`maxTries` attempts have run, otherwise re-raise the last exception.
Returns the result together with the number of attempts made. -/
def backoffRun (attempt : Nat → HttpOutcome) (maxTries : Nat) (n : Nat) :
    Nat → Except DoclingExc ParseResult × Nat
  | 0 => (parseDocumentBody (attempt n), n + 1)
  | fuel + 1 =>
    match parseDocumentBody (attempt n) with
    | .ok r => (.ok r, n + 1)
    | .error e =>
      if backoffRetries e ∧ n + 1 < maxTries then
        backoffRun attempt maxTries (n + 1) fuel
      else (.error e, n + 1)

/-- `DoclingClient.parse_document(file_path)` under the backoff decorator:
at most 3 attempts, retrying only timeouts and network errors.  The
second component is the number of HTTP attempts that were made. -/
def parseDocument (attempt : Nat → HttpOutcome) :
    Except DoclingExc ParseResult × Nat :=
  backoffRun attempt 3 0 3

/-! ## Ingestion pipeline (`app/services/pipeline.py`)

`DocumentPipeline.process_document` sequences parsing → chunking → graph
extraction → document relationships → indexing.  Each stage's interaction
with its external collaborator is an `Except` outcome; the best-effort
stages carry the partial counts accumulated before their exception.
Database reads/writes (`_update_status`, `get_document`,
`update_document`) are modelled as always succeeding, and wall-clock
timestamps/durations of log entries are omitted (only stage name and
error field are claim-relevant). -/

/-- `ProcessingStatus` (`app/models/documents.py`). -/
inductive ProcessingStatus where
  | uploading | parsing | chunking | graphExtracting | indexing | done | failed
  deriving Repr, DecidableEq

/-- A `ProcessingLogEntry` (timestamps omitted). -/
structure LogEntry where
  stage : String
  error : Option String := none
  deriving Repr, DecidableEq

/-- The document record fields the pipeline mutates. -/
structure DocRecord where
  status : ProcessingStatus := .uploading
  current_stage : String := ""
  error : Option String := none
  page_count : Nat := 0
  chunk_count : Nat := 0
  entity_count : Nat := 0
  relationship_count : Nat := 0
  doc_relationship_count : Nat := 0
  processing_log : List LogEntry := []
  deriving Repr, DecidableEq

/-- A Python exception as the pipeline's `except` clauses see it: its
message and whether it is a `DoclingError`. -/
structure PyExc where
  msg : String
  isDocling : Bool := false
  deriving Repr, DecidableEq

/-- Per-stage outcomes for one run of `process_document`:
* `parsing` covers `docling.parse_document` + `storage.save_processed_json`;
* `chunking` yields the chunk count (`chunker.chunk_document`);
* `graph` yields `(entity_count, relationship_count)`, or an exception
  with the partial counts accumulated before it;
* `docRel` yields `doc_relationship_count`, or an exception with the
  partial count;
* `indexing` yields `indexed_count` (`indexer.index_chunks`). -/
structure StageOutcomes where
  parsing : Except PyExc ParseResult
  chunking : Except PyExc Nat
  graph : Except (PyExc × Nat × Nat) (Nat × Nat)
  docRel : Except (PyExc × Nat) Nat
  indexing : Except PyExc Nat

/-- Result of one `process_document` run. -/
structure PipelineResult where
  doc : DocRecord
  /-- `storage.delete_document_files` was triggered (failure cleanup). -/
  filesDeleted : Bool
  /-- The boolean `process_document` returns. -/
  success : Bool
  /-- The stages for which `_update_status` was called, in order
  (instrumentation for "execution reaches stage X"). -/
  stagesStarted : List String
  deriving Repr, DecidableEq

/-- The failure message built at the pipeline's outer `except` clauses:
`DoclingError`s get the parsing prefix, everything else the generic one. -/
def failureMessage (e : PyExc) : String :=
  if e.isDocling then "Document parsing failed: " ++ e.msg
  else "Processing error: " ++ e.msg

/-- `DocumentPipeline._handle_failure(doc_id, user_id, error, processing_log)`:
mark the document `Failed`, record the message, flush the accumulated log
and delete the document's stored files. -/
def handleFailure (d : DocRecord) (error : String) (log : List LogEntry)
    (started : List String) : PipelineResult :=
  { doc := { d with
             status := .failed,
             current_stage := "Failed",
             error := some error,
             processing_log := d.processing_log ++ log },
    filesDeleted := true, success := false, stagesStarted := started }

/-- `DocumentPipeline.process_document(doc_id, user_id, file_path)`. -/
def processDocument (o : StageOutcomes) (d : DocRecord) : PipelineResult :=
  -- Stage 1: PARSING
  let started := ["Parsing"]
  match o.parsing with
  | .error e => handleFailure d (failureMessage e) [] started
  | .ok parse =>
    let log := [({ stage := "Parsing" } : LogEntry)]
    -- Stage 2: CHUNKING
    let started := started ++ ["Chunking"]
    match o.chunking with
    | .error e => handleFailure d (failureMessage e) log started
    | .ok _chunkCount =>
      let log := log ++ [({ stage := "Chunking" } : LogEntry)]
      -- Stage 3: GRAPH EXTRACTION (best-effort)
      let started := started ++ ["GraphExtracting"]
      let (log, entityCount, relationshipCount) :=
        match o.graph with
        | .ok (ec, rc) => (log ++ [({ stage := "GraphExtracting" } : LogEntry)], ec, rc)
        | .error (e, ec, rc) =>
          (log ++ [({ stage := "GraphExtracting", error := some e.msg } : LogEntry)], ec, rc)
      -- Stage 3.5: DOCUMENT RELATIONSHIPS (best-effort, no status update)
      let (log, docRelationshipCount) :=
        match o.docRel with
        | .ok n => (log ++ [({ stage := "DocumentRelationships" } : LogEntry)], n)
        | .error (e, n) =>
          (log ++ [({ stage := "DocumentRelationships", error := some e.msg } : LogEntry)], n)
      -- Stage 4: INDEXING
      let started := started ++ ["Indexing"]
      match o.indexing with
      | .error e => handleFailure d (failureMessage e) log started
      | .ok indexedCount =>
        let log := log ++ [({ stage := "Indexing" } : LogEntry)]
        -- Stage 5: DONE
        { doc := { d with
                   status := .done,
                   current_stage := "Complete",
                   page_count := parse.page_count,
                   chunk_count := indexedCount,
                   entity_count := entityCount,
                   relationship_count := relationshipCount,
                   doc_relationship_count := docRelationshipCount,
                   processing_log := d.processing_log ++ log },
          filesDeleted := false, success := true, stagesStarted := started }

/-! ## Semantic chunker (`app/services/chunker.py`)

`SemanticChunker` with its element-aware path: `_group_elements_into_chunks`,
`_split_large_text`, `_create_chunks`, `_add_overlap`, `_deduplicate` and
`_enforce_max_tokens`, composed by `chunk_document`.  (When the input has
no structured elements, `chunk_document` dispatches to the markdown
fallback `_chunk_from_markdown` instead; the claims settled here are
exercised through the element path.)

The tiktoken `cl100k_base` encoder is an external library; it enters the
model as an `Encoder` (encode/decode pair), mirroring `self.encoder`.
`created_at` timestamps are wall-clock and omitted.  The SHA-256 content
hash used by `_deduplicate` is modelled as injective (dedup directly on
the normalized text). -/

/-- The `tiktoken` encoder interface used by the chunker. -/
structure Encoder where
  encode : String → List Nat
  decode : List Nat → String

/-- `SemanticChunker.count_tokens(text)`. -/
def countTokens (enc : Encoder) (s : String) : Nat :=
  (enc.encode s).length

/-- `SemanticChunker.__init__` configuration.  `overlap_tokens` is the
precomputed `int(target_tokens * overlap_pct)` (the only use of
`overlap_pct` in the source); defaults correspond to
`target_tokens=1000, max_tokens=10000, overlap_pct=0.15,
min_chunk_tokens=50`. -/
structure ChunkerConfig where
  target_tokens : Nat := 1000
  max_tokens : Nat := 10000
  overlap_tokens : Nat := 150
  min_chunk_tokens : Nat := 50
  deriving Repr, DecidableEq

/-- The kinds of `DoclingElement` (`app/models/documents.py`):
`DoclingTextElement`, `DoclingHeadingElement`, `DoclingListItemElement`,
`DoclingTableElement`. -/
inductive ElemKind where
  | textE | headingE | listItemE | tableE
  deriving Repr, DecidableEq

/-- A parsed document element (fields the chunker reads). -/
structure DElement where
  kind : ElemKind
  text : String
  page_number : Option Nat := none
  deriving Repr, DecidableEq

/-- Sentence-end characters of the `_split_large_text` regex
`(?<=[.!?])\s+`. -/
def isSentEnd (c : Char) : Bool :=
  c = '.' || c = '!' || c = '?'

/-- Worker for `re.split(r'(?<=[.!?])\s+', text)`: `acc` holds finished
pieces, `cur` the current piece reversed, and `skipping` is true while the
whitespace run of a match is being consumed.  A whitespace char
immediately after a sentence-end char ends the piece and starts a run;
the run ends at the first non-whitespace char. -/
def sentSplitAux : List (List Char) → List Char → Bool → List Char → List (List Char)
  | acc, cur, _, [] => acc ++ [cur.reverse]
  | acc, cur, true, c :: cs =>
    if c.isWhitespace then sentSplitAux acc cur true cs
    else sentSplitAux acc (c :: cur) false cs
  | acc, cur, false, c :: cs =>
    if c.isWhitespace && (match cur with | p :: _ => isSentEnd p | [] => false) then
      sentSplitAux (acc ++ [cur.reverse]) [] true cs
    else sentSplitAux acc (c :: cur) false cs

/-- `re.split(r'(?<=[.!?])\s+', text)`: split at whitespace runs directly
preceded by `.`, `!` or `?`. -/
def sentSplit (text : String) : List String :=
  (sentSplitAux [] [] false text.data).map String.mk

/-- Mutable state of the `_split_large_text` loop: emitted chunks, the
`current` accumulator string and its running token count. -/
structure SplitState where
  chunks : List String
  current : String
  tokens : Nat
  deriving Repr, DecidableEq

/-- One iteration of the word-level inner loop of `_split_large_text`
(reached for sentences longer than `max_tokens`). -/
def splitWordsStep (cfg : ChunkerConfig) (enc : Encoder)
    (st : SplitState) (word : String) : SplitState :=
  let wordTokens := countTokens enc (word ++ " ")
  if cfg.target_tokens < st.tokens + wordTokens ∧ st.current ≠ "" then
    { chunks := st.chunks ++ [pyStrip st.current],
      current := word ++ " ", tokens := wordTokens }
  else
    { st with current := st.current ++ word ++ " ", tokens := st.tokens + wordTokens }

/-- One iteration of the sentence loop of `_split_large_text`. -/
def splitSentenceStep (cfg : ChunkerConfig) (enc : Encoder)
    (st : SplitState) (sentence : String) : SplitState :=
  let sentenceTokens := countTokens enc sentence
  -- If single sentence exceeds max, split by words
  if cfg.max_tokens < sentenceTokens then
    let st :=
      if st.current ≠ "" then
        { chunks := st.chunks ++ [pyStrip st.current], current := "", tokens := 0 }
      else st
    (pySplitWs sentence).foldl (splitWordsStep cfg enc) st
  else
    if cfg.target_tokens < st.tokens + sentenceTokens ∧ st.current ≠ "" then
      { chunks := st.chunks ++ [pyStrip st.current],
        current := sentence ++ " ", tokens := sentenceTokens }
    else
      { st with current := st.current ++ sentence ++ " ",
                tokens := st.tokens + sentenceTokens }

/-- `SemanticChunker._split_large_text(text)`. -/
def splitLargeText (cfg : ChunkerConfig) (enc : Encoder) (text : String) :
    List String :=
  let st := (sentSplit text).foldl (splitSentenceStep cfg enc) ⟨[], "", 0⟩
  let chunks :=
    if pyStrip st.current ≠ "" then st.chunks ++ [pyStrip st.current] else st.chunks
  if chunks.isEmpty then [text] else chunks

/-- A raw chunk dict built by `_group_elements_into_chunks`
(`token_count` is attached by `_finalize_chunk` or at table creation). -/
structure RawChunk where
  texts : List String := []
  page_start : Option Nat := none
  page_end : Option Nat := none
  section_title : Option String := none
  is_table : Bool := false
  token_count : Nat := 0
  deriving Repr, DecidableEq

/-- `SemanticChunker._new_chunk()`. -/
def newRawChunk : RawChunk := {}

/-- `SemanticChunker._finalize_chunk(chunk, token_count)`. -/
def finalizeRaw (r : RawChunk) (tok : Nat) : RawChunk :=
  { r with token_count := tok }

/-- `SemanticChunker._update_page_range(chunk, page_number)`. -/
def updatePageRange (r : RawChunk) (page : Option Nat) : RawChunk :=
  match page with
  | none => r
  | some p =>
    let r := if r.page_start = none then { r with page_start := some p } else r
    { r with page_end := some p }

/-- Loop state of `_group_elements_into_chunks`. -/
structure GroupState where
  chunks : List RawChunk
  current : RawChunk
  tokens : Nat
  sectionTitle : String
  deriving Repr, DecidableEq

/-- Append an (oversized-element) split piece to the current chunk,
flushing first when the target size is exceeded — the inner loop of the
`element_tokens > max_tokens` branch of `_group_elements_into_chunks`. -/
def groupSplitPieceStep (cfg : ChunkerConfig) (enc : Encoder)
    (page : Option Nat) (st : GroupState) (piece : String) : GroupState :=
  let pieceTokens := countTokens enc piece
  let st :=
    if cfg.target_tokens < st.tokens + pieceTokens ∧ st.current.texts ≠ [] then
      { st with
        chunks := st.chunks ++ [finalizeRaw st.current st.tokens],
        current := { newRawChunk with section_title := some st.sectionTitle },
        tokens := 0 }
    else st
  { st with
    current := updatePageRange
      { st.current with texts := st.current.texts ++ [piece] } page,
    tokens := st.tokens + pieceTokens }

/-- One iteration of the element loop of `_group_elements_into_chunks`. -/
def groupStep (cfg : ChunkerConfig) (enc : Encoder)
    (st : GroupState) (el : DElement) : GroupState :=
  let elTokens := countTokens enc el.text
  -- Update section title from headings (and start a new chunk if warranted)
  let st :=
    if el.kind = .headingE then
      let st := { st with sectionTitle := el.text }
      let st :=
        if st.current.texts ≠ [] ∧ cfg.min_chunk_tokens ≤ st.tokens then
          { st with
            chunks := st.chunks ++ [finalizeRaw st.current st.tokens],
            current := newRawChunk, tokens := 0 }
        else st
      { st with current := { st.current with section_title := some el.text } }
    else st
  if el.kind = .tableE then
    -- Flush current text chunk first
    let st :=
      if st.current.texts ≠ [] then
        { st with
          chunks := st.chunks ++ [finalizeRaw st.current st.tokens],
          current := newRawChunk, tokens := 0 }
      else st
    if elTokens ≤ cfg.max_tokens then
      -- Small table: keep atomic
      { st with chunks := st.chunks ++
          [{ texts := [el.text], page_start := el.page_number,
             page_end := el.page_number, section_title := some st.sectionTitle,
             is_table := true, token_count := elTokens }] }
    else
      -- Table too large: split it
      { st with chunks := st.chunks ++
          (splitLargeText cfg enc el.text).map (fun t =>
            { texts := [t], page_start := el.page_number,
              page_end := el.page_number, section_title := some st.sectionTitle,
              is_table := true, token_count := countTokens enc t }) }
  else
    -- Text elements (headings and list items included): group until target
    let st :=
      if cfg.target_tokens < st.tokens + elTokens ∧ st.current.texts ≠ [] then
        { st with
          chunks := st.chunks ++ [finalizeRaw st.current st.tokens],
          current := { newRawChunk with section_title := some st.sectionTitle },
          tokens := 0 }
      else st
    if cfg.max_tokens < elTokens then
      -- Oversized single element: split into smaller pieces
      (splitLargeText cfg enc el.text).foldl
        (groupSplitPieceStep cfg enc el.page_number) st
    else
      { st with
        current := updatePageRange
          { st.current with texts := st.current.texts ++ [el.text] } el.page_number,
        tokens := st.tokens + elTokens }

/-- `SemanticChunker._group_elements_into_chunks(elements)`. -/
def groupElementsIntoChunks (cfg : ChunkerConfig) (enc : Encoder)
    (elements : List DElement) : List RawChunk :=
  let st := elements.foldl (groupStep cfg enc)
    { chunks := [], current := newRawChunk, tokens := 0, sectionTitle := "Document" }
  if st.current.texts ≠ [] then st.chunks ++ [finalizeRaw st.current st.tokens]
  else st.chunks

/-- `ChunkMetadata` (`app/models/documents.py`; `created_at` omitted). -/
structure ChunkMetadata where
  chunk_id : String
  doc_id : String
  user_id : String
  filename : String
  section_title : Option String
  page_range : Option String
  chunk_index : Nat
  token_count : Nat
  text : String
  deriving Repr, DecidableEq

/-- Python's `f"{idx:03d}"`: decimal, left-padded with zeros to width 3. -/
def pad3 (n : Nat) : String :=
  if n < 10 then "00" ++ toString n
  else if n < 100 then "0" ++ toString n
  else toString n

/-- The page-range formatting of `_create_chunks` (note the Python
truthiness tests: page 0 counts as absent). -/
def formatPageRange (ps pe : Option Nat) : Option String :=
  match ps with
  | some p =>
    if p ≠ 0 then
      match pe with
      | some q => if q ≠ 0 ∧ q ≠ p then some s!"{p}-{q}" else some (toString p)
      | none => some (toString p)
    else none
  | none => none

/-- `SemanticChunker._create_chunks(raw_chunks, doc_id, user_id, filename)`. -/
def createChunks (raws : List RawChunk) (doc_id user_id filename : String) :
    List ChunkMetadata :=
  raws.enum.map (fun (idx, raw) =>
    { chunk_id := doc_id ++ "-chunk-" ++ pad3 idx,
      doc_id := doc_id, user_id := user_id, filename := filename,
      section_title := raw.section_title,
      page_range := formatPageRange raw.page_start raw.page_end,
      chunk_index := idx, token_count := raw.token_count,
      text := String.intercalate "\n\n" raw.texts })

/-- Python's `lst[-k:]` on token lists (note `lst[-0:]` is the whole
list). -/
def pySliceLast (k : Nat) (xs : List Nat) : List Nat :=
  if k = 0 then xs else xs.drop (xs.length - k)

/-- The overlap decision for one chunk given its (already processed)
predecessor — body of the `_add_overlap` loop.  The source's skip test is
`prev.token_count > max_tokens * 0.8` on floats; for integer token counts
it coincides with the exact rational test `10 * prev > 8 * max` used
here. -/
def overlapStep (cfg : ChunkerConfig) (enc : Encoder)
    (prev cur : ChunkMetadata) : ChunkMetadata :=
  -- Don't add overlap to/from table chunks (token-count heuristic)
  if 8 * cfg.max_tokens < 10 * prev.token_count then cur
  else
    let prevTokens := enc.encode prev.text
    if cfg.overlap_tokens < prevTokens.length then
      let overlapText := enc.decode (pySliceLast cfg.overlap_tokens prevTokens)
      let newText := overlapText ++ " " ++ cur.text
      { cur with text := newText, token_count := countTokens enc newText }
    else cur

/-- The `_add_overlap` loop from the second chunk on; `prev` is the
previous chunk *after* its own mutation (the source mutates the list
elements in place, so overlap text cascades). -/
def addOverlapGo (cfg : ChunkerConfig) (enc : Encoder)
    (prev : ChunkMetadata) : List ChunkMetadata → List ChunkMetadata
  | [] => []
  | c :: rest =>
    let c' := overlapStep cfg enc prev c
    c' :: addOverlapGo cfg enc c' rest

/-- `SemanticChunker._add_overlap(chunks)`. -/
def addOverlap (cfg : ChunkerConfig) (enc : Encoder)
    (chunks : List ChunkMetadata) : List ChunkMetadata :=
  if chunks.length ≤ 1 then chunks
  else
    match chunks with
    | [] => []
    | c0 :: rest => c0 :: addOverlapGo cfg enc c0 rest

/-- `SemanticChunker._deduplicate(chunks)`: drop chunks whose normalized
text (`text.lower().strip()`) was already seen; the source compares
SHA-256 digests of the normalized text, modelled as comparing the
normalized text itself. -/
def dedupChunks : List ChunkMetadata → List String → List ChunkMetadata
  | [], _ => []
  | c :: rest, seen =>
    let normalized := pyStrip (pyLower c.text)
    if normalized ∈ seen then dedupChunks rest seen
    else c :: dedupChunks rest (normalized :: seen)

/-- `SemanticChunker._enforce_max_tokens(chunks)`: pass through chunks
within the limit; re-split an oversized chunk with `_split_large_text`. -/
def enforceMaxTokens (cfg : ChunkerConfig) (enc : Encoder)
    (chunks : List ChunkMetadata) : List ChunkMetadata :=
  chunks.foldl (fun acc c =>
    if c.token_count ≤ cfg.max_tokens then acc ++ [c]
    else
      acc ++ (splitLargeText cfg enc c.text).enum.map (fun (i, t) =>
        { c with
          chunk_id := c.chunk_id ++ "-split-" ++ toString i,
          chunk_index := c.chunk_index * 100 + i,
          token_count := countTokens enc t,
          text := t })) []

/-- `SemanticChunker.chunk_document` on an input that *has* structured
elements (the element-aware path; with no elements the source falls back
to `_chunk_from_markdown`). -/
def chunkDocumentElements (cfg : ChunkerConfig) (enc : Encoder)
    (elements : List DElement) (doc_id user_id filename : String) :
    List ChunkMetadata :=
  let raws := groupElementsIntoChunks cfg enc elements
  let chunks := createChunks raws doc_id user_id filename
  let withOverlap := addOverlap cfg enc chunks
  let unique := dedupChunks withOverlap []
  enforceMaxTokens cfg enc unique

/-- A concrete instance of the encoder interface: one token per
character.  (The violation exhibited for C1 needs only that some
whitespace-free text exceeds `max_tokens`, which holds for `cl100k_base`
as well since its vocabulary is finite.) -/
def charEncoder : Encoder :=
  { encode := fun s => s.data.map Char.toNat,
    decode := fun ns => String.mk (ns.map Char.ofNat) }

/-! ## Theorems -/

/-- C9: For the empty candidate list, `Reranker.rerank` returns
`{"chunks": [], "count": 0, "latency_ms": 0}` without invoking the
external reranking service at all, for every top_k value, configured
limit, call outcome and elapsed time (and independently of the query,
which the result does not depend on). -/
theorem C9_rerank_empty (apiKey : Bool) (top_k : Option Nat) (rerankLimit : Nat)
    (call : Except String (List (Nat × ℚ))) (elapsed : Nat) :
    rerank [] apiKey top_k rerankLimit call elapsed =
      { chunks := [], count := 0, latency_ms := 0, service_called := false } :=
  rfl

/-- C10: For the empty chunk list, `Generator.generate` returns the fixed
no-information answer with an empty citations list, `synthesis_mode`
false and `source_doc_count` 0, without invoking the external generation
model, for every call outcome, citation builder and elapsed time (and
independently of query and history, which the result does not depend on). -/
theorem C10_generate_empty (callOutcome : GenCallOutcome)
    (buildCitations : List GChunk → String → Bool → List Citation) (elapsed : Nat) :
    generate [] callOutcome buildCitations elapsed =
      .ok { answer := "I cannot find relevant information in the uploaded documents.",
            citations := [], latency_ms := elapsed, tokens_used := 0,
            synthesis_mode := false, source_doc_count := 0, model_called := false } :=
  rfl

/-- C3 counterexample: with the API credential missing, a 2-chunk input and
`top_k = 1`, `Reranker.rerank` returns the whole input list (2 chunks),
not the input truncated to `top_k` (1 chunk), so the claimed fallback
shape fails for the missing-credential failure. -/
theorem C3_counterexample :
    (rerank [⟨"a", none, none⟩, ⟨"b", none, none⟩] false (some 1) 10
        (.error "api failure") 0).chunks
      = [⟨"a", none, none⟩, ⟨"b", none, none⟩] ∧
    ([(⟨"a", none, none⟩ : RChunk), ⟨"b", none, none⟩].take 1 = [⟨"a", none, none⟩]) ∧
    [(⟨"a", none, none⟩ : RChunk), ⟨"b", none, none⟩] ≠ [⟨"a", none, none⟩] := by
  refine ⟨rfl, rfl, by decide⟩

/-- C3 (amended): for every non-empty chunk list, `Reranker.rerank` never
raises (it is total and returns a result record on every path); when the
external rerank call fails with an exception it returns exactly the input
list truncated to the requested count, in original order, with a single
call attempt (no retry — the embedding performs at most one call by
construction); when the API credential is missing it instead returns the
whole input list, unreordered and untruncated. -/
theorem C3_rerank_failure_paths (chunks : List RChunk) (top_k : Option Nat)
    (rerankLimit : Nat) (err : String) (call : Except String (List (Nat × ℚ)))
    (elapsed : Nat) (hne : chunks ≠ []) :
    rerank chunks true top_k rerankLimit (.error err) elapsed =
      { chunks := chunks.take (top_k.getD rerankLimit),
        count := (chunks.take (top_k.getD rerankLimit)).length,
        latency_ms := elapsed, service_called := true } ∧
    rerank chunks false top_k rerankLimit call elapsed =
      { chunks := chunks, count := chunks.length, latency_ms := 0,
        service_called := false } := by
  have h : chunks.isEmpty = false := by
    cases chunks with
    | nil => exact absurd rfl hne
    | cons c cs => rfl
  constructor
  · simp [rerank, h, Bind.bind, Except.bind]
  · simp [rerank, h]

/-- C3 witness: the amended fallback shape at a concrete input. -/
theorem C3_witness :
    rerank [⟨"a", none, none⟩] true none 5 (.error "x") 3 =
      { chunks := [⟨"a", none, none⟩], count := 1, latency_ms := 3,
        service_called := true } := by
  have h := (C3_rerank_failure_paths [⟨"a", none, none⟩] none 5 "x" (.error "x") 3
    (by simp)).1
  simpa using h

/-- C4: the claim says 5xx responses from the parsing service are retried
with bounded backoff and that retry exhaustion is converted into a
permanent parse error.  The code violates both: the backoff decorator's
exception tuple is `(TimeoutException, NetworkError)` only, so a 500
response raises the `HTTPStatusError` immediately after a single attempt
(despite the source's own `raise  # Let backoff handle 5xx`), and
exhausted timeout retries re-raise the timeout exception rather than a
`DoclingParseError`. -/
theorem C4_docling_5xx_not_retried :
    parseDocument (fun _ => .status 500) = (.error (.statusExc 500), 1) ∧
    parseDocument (fun _ => .timeout) = (.error .timeoutExc, 3) := by
  exact ⟨rfl, rfl⟩

/-- Shape of the `_merge_channels` graph loop: it only ever appends to
`merged`, appended items never have their entity name covered by the
semantic text, and the length is capped at `cap` when starting below it
(one extra append is possible when starting at or above it, because the
source checks the cap only after appending). -/
theorem mergeGo_spec (semText : List Char) (cap : Nat) :
    ∀ (graph merged : List MChunk), ∃ extra,
      mergeGo semText cap merged graph = merged ++ extra ∧
      (∀ g ∈ extra, containsSeq (pyLower g.entity_name).data semText = false) ∧
      (merged.length < cap → (merged ++ extra).length ≤ cap) ∧
      (cap ≤ merged.length → extra.length ≤ 1) := by
  intro graph
  induction graph with
  | nil =>
    intro merged
    refine ⟨[], by simp [mergeGo], by simp, ?_, by simp⟩
    intro h
    simpa using Nat.le_of_lt h
  | cons g rest ih =>
    intro merged
    by_cases hskip : containsSeq (pyLower g.entity_name).data semText = true
    · obtain ⟨extra, heq, hcov, hlt, hge⟩ := ih merged
      refine ⟨extra, ?_, hcov, hlt, hge⟩
      simpa [mergeGo, hskip] using heq
    · replace hskip : containsSeq (pyLower g.entity_name).data semText = false := by
        simpa using hskip
      have hstep : mergeGo semText cap merged (g :: rest) =
          if cap ≤ (merged ++ [g]).length then merged ++ [g]
          else mergeGo semText cap (merged ++ [g]) rest := by
        simp [mergeGo, hskip]
      by_cases hcap : cap ≤ (merged ++ [g]).length
      · rw [hstep, if_pos hcap]
        refine ⟨[g], rfl, ?_, ?_, fun _ => by simp⟩
        · intro x hx
          have hx' : x = g := by simpa using hx
          subst hx'; exact hskip
        · intro _
          simp only [List.length_append, List.length_cons, List.length_nil] at hcap ⊢
          omega
      · rw [hstep, if_neg hcap]
        obtain ⟨extra, heq, hcov, hlt, hge⟩ := ih (merged ++ [g])
        refine ⟨g :: extra, ?_, ?_, ?_, ?_⟩
        · rw [heq]; simp
        · intro x hx
          rcases List.mem_cons.mp hx with h | h
          · subst h; exact hskip
          · exact hcov x h
        · intro _
          have h2 : (merged ++ [g]).length < cap := Nat.lt_of_not_le hcap
          have h3 := hlt h2
          simp only [List.length_append, List.length_cons, List.length_nil] at h3 ⊢
          omega
        · intro hge'
          exfalso
          apply hcap
          simp only [List.length_append, List.length_cons, List.length_nil]
          omega

/-- C7 counterexample: with an empty semantic channel and one graph chunk
whose entity name is non-empty, `_merge_channels` returns a 1-element
list, exceeding twice the semantic-channel count (0). -/
theorem C7_counterexample :
    mergeChannels [] [⟨"", "x"⟩] = [⟨"", "x"⟩] ∧
    ¬ (mergeChannels [] [⟨"", "x"⟩]).length ≤ 2 * ([] : List MChunk).length := by
  constructor
  · rfl
  · decide

/-- C7 (amended): `HybridRetriever._merge_channels` returns a list that
begins with every semantic-channel item in order and appends a
graph-channel item only if its lowercased entity name does not occur as a
substring of the lowercased space-joined semantic-channel text; when the
semantic channel is non-empty the total length never exceeds twice the
semantic-channel count, and when it is empty at most one graph item is
returned (the cap is checked only after an append, so the claimed
`≤ 2 × count` bound fails exactly in the empty case). -/
theorem C7_merge_channels (semantic graph : List MChunk) :
    (mergeChannels semantic graph).take semantic.length = semantic ∧
    (∀ g ∈ (mergeChannels semantic graph).drop semantic.length,
        containsSeq (pyLower g.entity_name).data (semanticText semantic) = false) ∧
    (semantic ≠ [] → (mergeChannels semantic graph).length ≤ 2 * semantic.length) ∧
    (semantic = [] → (mergeChannels semantic graph).length ≤ 1) := by
  obtain ⟨extra, heq, hcov, hlt, hge⟩ :=
    mergeGo_spec (semanticText semantic) (semantic.length * 2) graph semantic
  unfold mergeChannels
  rw [heq]
  refine ⟨by simp, ?_, ?_, ?_⟩
  · intro g hg
    exact hcov g (by simpa using hg)
  · intro hne
    have hpos : 0 < semantic.length := List.length_pos.mpr hne
    have := hlt (by omega)
    simpa [Nat.mul_comm] using this
  · intro hnil
    subst hnil
    have := hge (by simp)
    simpa using this

/-- C7 witness: the amended bounds at concrete inputs (a 1-element
semantic channel, and the empty semantic channel). -/
theorem C7_witness :
    (([(⟨"t", ""⟩ : MChunk)] : List MChunk) ≠ [] →
      (mergeChannels [⟨"t", ""⟩] [⟨"", "x"⟩, ⟨"", "y"⟩, ⟨"", "z"⟩]).length ≤ 2 * 1) ∧
    (([] : List MChunk) = [] → (mergeChannels [] [⟨"", "x"⟩, ⟨"", "y"⟩]).length ≤ 1) := by
  constructor
  · intro h
    simpa using (C7_merge_channels [⟨"t", ""⟩] [⟨"", "x"⟩, ⟨"", "y"⟩, ⟨"", "z"⟩]).2.2.1 h
  · intro h
    exact (C7_merge_channels [] [⟨"", "x"⟩, ⟨"", "y"⟩]).2.2.2 h

/-- C2: in `DocumentPipeline.process_document`, an exception in the
GraphExtracting or DocumentRelationships stage is recorded as an error
field on that stage's processing-log entry and execution still reaches
the Indexing stage; an exception in Parsing, Chunking or Indexing aborts
the pipeline, sets the document status to Failed with the error message
recorded, and triggers deletion of the document's stored files. -/
theorem C2_pipeline_criticality (o : StageOutcomes) (d : DocRecord) :
    (∀ p c e ec rc, o.parsing = .ok p → o.chunking = .ok c →
        o.graph = .error (e, ec, rc) →
        ({ stage := "GraphExtracting", error := some e.msg } : LogEntry)
            ∈ (processDocument o d).doc.processing_log ∧
        "Indexing" ∈ (processDocument o d).stagesStarted) ∧
    (∀ p c e n, o.parsing = .ok p → o.chunking = .ok c →
        o.docRel = .error (e, n) →
        ({ stage := "DocumentRelationships", error := some e.msg } : LogEntry)
            ∈ (processDocument o d).doc.processing_log ∧
        "Indexing" ∈ (processDocument o d).stagesStarted) ∧
    (∀ e, o.parsing = .error e →
        (processDocument o d).doc.status = .failed ∧
        (processDocument o d).doc.error = some (failureMessage e) ∧
        (processDocument o d).filesDeleted = true) ∧
    (∀ p e, o.parsing = .ok p → o.chunking = .error e →
        (processDocument o d).doc.status = .failed ∧
        (processDocument o d).doc.error = some (failureMessage e) ∧
        (processDocument o d).filesDeleted = true) ∧
    (∀ p c e, o.parsing = .ok p → o.chunking = .ok c → o.indexing = .error e →
        (processDocument o d).doc.status = .failed ∧
        (processDocument o d).doc.error = some (failureMessage e) ∧
        (processDocument o d).filesDeleted = true) := by
  refine ⟨?_, ?_, ?_, ?_, ?_⟩
  · intro p c e ec rc hp hc hg
    rcases hdr : o.docRel with ⟨e', n'⟩ | n <;>
      rcases hidx : o.indexing with e'' | m <;>
      simp [processDocument, hp, hc, hg, hdr, hidx, handleFailure]
  · intro p c e n hp hc hdr
    rcases hg : o.graph with ⟨e', ec', rc'⟩ | ⟨ec, rc⟩ <;>
      rcases hidx : o.indexing with e'' | m <;>
      simp [processDocument, hp, hc, hg, hdr, hidx, handleFailure]
  · intro e hp
    simp [processDocument, hp, handleFailure]
  · intro p e hp hc
    simp [processDocument, hp, hc, handleFailure]
  · intro p c e hp hc hidx
    rcases hg : o.graph with ⟨e', ec', rc'⟩ | ⟨ec, rc⟩ <;>
      rcases hdr : o.docRel with ⟨e'', n'⟩ | n <;>
      simp [processDocument, hp, hc, hg, hdr, hidx, handleFailure]

/-- C2 witness: the best-effort and critical behaviours at concrete stage
outcomes (graph extraction failing while the run completes, and a parsing
failure aborting the run). -/
theorem C2_witness :
    (({ stage := "GraphExtracting", error := some "boom" } : LogEntry)
        ∈ (processDocument
            { parsing := .ok ⟨3⟩, chunking := .ok 2,
              graph := .error (⟨"boom", false⟩, 1, 0),
              docRel := .ok 0, indexing := .ok 2 } {}).doc.processing_log ∧
      "Indexing" ∈ (processDocument
            { parsing := .ok ⟨3⟩, chunking := .ok 2,
              graph := .error (⟨"boom", false⟩, 1, 0),
              docRel := .ok 0, indexing := .ok 2 } {}).stagesStarted) ∧
    (processDocument
        { parsing := .error ⟨"nope", true⟩, chunking := .ok 0, graph := .ok (0, 0),
          docRel := .ok 0, indexing := .ok 0 } {}).doc.status = .failed := by
  constructor
  · exact (C2_pipeline_criticality
      { parsing := .ok ⟨3⟩, chunking := .ok 2,
        graph := .error (⟨"boom", false⟩, 1, 0),
        docRel := .ok 0, indexing := .ok 2 } {}).1
      ⟨3⟩ 2 ⟨"boom", false⟩ 1 0 rfl rfl rfl
  · exact ((C2_pipeline_criticality
      { parsing := .error ⟨"nope", true⟩, chunking := .ok 0, graph := .ok (0, 0),
        docRel := .ok 0, indexing := .ok 0 } {}).2.2.1 ⟨"nope", true⟩ rfl).1

/-- Membership in the shared-entity candidate fold: exactly the refs of
candidate documents distinct from `doc_id`, with stored entities, whose
normalized name set shares at least 2 members with `source_names`. -/
theorem mem_sharedFoldr (f : String → List String) (docId : String)
    (sn : Finset String) (docs : List String) (r : SharedRef) :
    r ∈ docs.foldr (sharedEntityStep f docId sn) [] ↔
      ∃ t, t ∈ docs ∧ t ≠ docId ∧ (f t).isEmpty = false ∧
        2 ≤ (sn ∩ normalizeEntityNames (f t)).card ∧
        r = { target_doc_id := t,
              strength := min (1/2 + (((sn ∩ normalizeEntityNames (f t)).card : ℚ) - 2)
                * (1/10)) (9/10),
              shared := sn ∩ normalizeEntityNames (f t) } := by
  induction docs with
  | nil => simp
  | cons t rest ih =>
    simp only [List.foldr_cons, sharedEntityStep]
    by_cases h1 : t = docId
    · simp only [if_pos h1, ih]
      constructor
      · rintro ⟨t', ht', h⟩
        exact ⟨t', List.mem_cons_of_mem _ ht', h⟩
      · rintro ⟨t', ht', hne, h⟩
        rcases List.mem_cons.mp ht' with heq | hmem
        · exact absurd (heq.trans h1) hne
        · exact ⟨t', hmem, hne, h⟩
    · simp only [if_neg h1]
      by_cases h2 : (f t).isEmpty
      · simp only [if_pos h2, ih]
        constructor
        · rintro ⟨t', ht', h⟩
          exact ⟨t', List.mem_cons_of_mem _ ht', h⟩
        · rintro ⟨t', ht', hne, hfe, h⟩
          rcases List.mem_cons.mp ht' with heq | hmem
          · subst heq; exact absurd h2 (by simp [hfe])
          · exact ⟨t', hmem, hne, hfe, h⟩
      · replace h2 : (f t).isEmpty = false := by simpa using h2
        simp only [h2, Bool.false_eq_true, if_false]
        by_cases h3 : 2 ≤ (sn ∩ normalizeEntityNames (f t)).card
        · simp only [if_pos h3, List.mem_cons, ih]
          constructor
          · rintro (heq | ⟨t', ht', h⟩)
            · exact ⟨t, Or.inl rfl, h1, h2, h3, heq⟩
            · exact ⟨t', Or.inr ht', h⟩
          · rintro ⟨t', ht', hne, hfe, hcard, h⟩
            rcases ht' with heq | hmem
            · subst heq; exact Or.inl h
            · exact Or.inr ⟨t', hmem, hne, hfe, hcard, h⟩
        · simp only [if_neg h3, ih]
          constructor
          · rintro ⟨t', ht', h⟩
            exact ⟨t', List.mem_cons_of_mem _ ht', h⟩
          · rintro ⟨t', ht', hne, hfe, hcard, h⟩
            rcases List.mem_cons.mp ht' with heq | hmem
            · subst heq; exact absurd hcard h3
            · exact ⟨t', hmem, hne, hfe, hcard, h⟩

/-- An empty entity list normalizes to the empty name set, so any
2-member intersection forces both entity lists to be non-empty. -/
theorem normalizeEntityNames_nil : normalizeEntityNames [] = ∅ := rfl

/-- C5: for every pair of documents compared by the shared-entity
detector (a candidate `t` distinct from the ingested `docId`), a
`shared_entities` ref to `t` is produced iff the intersection of the two
normalized entity-name sets has at least 2 members, and any produced ref
carries strength exactly `min(0.5 + 0.1 × (n − 2), 0.9)` for `n` the
intersection size — in particular 0.5 for `n = 2`, 0.6 for `n = 3` and
the 0.9 cap for `n = 7`. -/
theorem C5_shared_entities (f : String → List String) (docId : String)
    (docs : List String) (t : String) (ht : t ∈ docs) (hne : t ≠ docId) :
    ((∃ r ∈ detectSharedEntities f docId docs, r.target_doc_id = t) ↔
      2 ≤ (normalizeEntityNames (f docId) ∩ normalizeEntityNames (f t)).card) ∧
    (∀ r ∈ detectSharedEntities f docId docs, r.target_doc_id = t →
      r.strength = min (1/2 +
          (((normalizeEntityNames (f docId) ∩ normalizeEntityNames (f t)).card : ℚ) - 2)
          * (1/10)) (9/10)) := by
  by_cases hsrc : (f docId).isEmpty
  · have hempty : normalizeEntityNames (f docId) = ∅ := by
      cases hfd : f docId with
      | nil => exact normalizeEntityNames_nil
      | cons a as => rw [hfd] at hsrc; simp [List.isEmpty] at hsrc
    have hdet : detectSharedEntities f docId docs = [] := by
      simp [detectSharedEntities, hsrc]
    rw [hdet, hempty]
    simp
  · replace hsrc : (f docId).isEmpty = false := by simpa using hsrc
    have hdet : detectSharedEntities f docId docs =
        docs.foldr (sharedEntityStep f docId (normalizeEntityNames (f docId))) [] := by
      simp [detectSharedEntities, hsrc]
    rw [hdet]
    constructor
    · constructor
      · rintro ⟨r, hr, htar⟩
        obtain ⟨t', _, _, _, hcard, hr'⟩ := (mem_sharedFoldr f docId _ docs r).mp hr
        have : t' = t := by rw [hr'] at htar; exact htar
        subst this
        exact hcard
      · intro hcard
        have hft : (f t).isEmpty = false := by
          rcases hfl : f t with _ | ⟨a, as⟩
          · rw [hfl] at hcard
            rw [normalizeEntityNames_nil] at hcard
            simp at hcard
          · rfl
        refine ⟨_, (mem_sharedFoldr f docId _ docs _).mpr
          ⟨t, ht, hne, hft, hcard, rfl⟩, rfl⟩
    · intro r hr htar
      obtain ⟨t', _, _, _, _, hr'⟩ := (mem_sharedFoldr f docId _ docs r).mp hr
      have : t' = t := by rw [hr'] at htar; exact htar
      subst this
      rw [hr']

/-- Concrete graph-store oracle for the C5 witness. -/
def c5Oracle (d : String) : List String :=
  if d = "new" then ["GPS", "IMU"] else if d = "old" then ["gps", "imu"] else []

/-- C5 witness: a concrete store where the ingested document shares
exactly the two normalized names `gps`/`imu` with one prior document,
yielding a ref of strength 0.5. -/
theorem C5_witness :
    (∃ r ∈ detectSharedEntities c5Oracle "new" ["old"], r.target_doc_id = "old") ∧
    (∀ r ∈ detectSharedEntities c5Oracle "new" ["old"],
      r.target_doc_id = "old" → r.strength = 1/2) := by
  have h := C5_shared_entities c5Oracle "new" ["old"] "old" (by simp) (by decide)
  have hc : (normalizeEntityNames (c5Oracle "new") ∩
      normalizeEntityNames (c5Oracle "old")).card = 2 := by decide
  constructor
  · exact h.1.mpr (by rw [hc])
  · intro r hr htar
    have hstr := h.2 r hr htar
    have h0 : (1/2 + (((2:Nat) : ℚ) - 2) * (1/10)) = 1/2 := by norm_num
    rw [hstr, hc, h0]
    exact min_eq_left (by norm_num)

/-- Everything kept by the dedup pass comes from the input and has a
target outside `seen`. -/
theorem mem_of_mem_dedupRefs :
    ∀ (refs : List ExplicitRef) (seen : List String) (r : ExplicitRef),
      r ∈ dedupRefs refs seen → r ∈ refs ∧ r.target_doc_id ∉ seen := by
  intro refs
  induction refs with
  | nil => intro seen r hr; simp [dedupRefs] at hr
  | cons a rest ih =>
    intro seen r hr
    by_cases ha : a.target_doc_id ∈ seen
    · rw [dedupRefs, if_pos ha] at hr
      obtain ⟨hmem, hnot⟩ := ih seen r hr
      exact ⟨List.mem_cons_of_mem _ hmem, hnot⟩
    · rw [dedupRefs, if_neg ha] at hr
      rcases List.mem_cons.mp hr with heq | hmem
      · subst heq; exact ⟨List.mem_cons_self _ _, ha⟩
      · obtain ⟨hmem', hnot⟩ := ih _ r hmem
        exact ⟨List.mem_cons_of_mem _ hmem',
          fun hcontra => hnot (List.mem_cons_of_mem _ hcontra)⟩

/-- The dedup pass keeps at most one ref per target document. -/
theorem dedupRefs_targets_nodup :
    ∀ (refs : List ExplicitRef) (seen : List String),
      ((dedupRefs refs seen).map ExplicitRef.target_doc_id).Nodup := by
  intro refs
  induction refs with
  | nil => intro seen; simp [dedupRefs]
  | cons a rest ih =>
    intro seen
    by_cases ha : a.target_doc_id ∈ seen
    · rw [dedupRefs, if_pos ha]; exact ih seen
    · rw [dedupRefs, if_neg ha]
      simp only [List.map_cons, List.nodup_cons]
      refine ⟨?_, ih _⟩
      intro hcontra
      obtain ⟨r, hr, htar⟩ := List.mem_map.mp hcontra
      have := (mem_of_mem_dedupRefs rest _ r hr).2
      exact this (by rw [htar]; exact List.mem_cons_self _ _)

/-- A ref whose target is not yet seen survives dedup up to its target:
some kept ref has the same target document. -/
theorem dedupRefs_covers :
    ∀ (refs : List ExplicitRef) (seen : List String) (r : ExplicitRef),
      r ∈ refs → r.target_doc_id ∉ seen →
      ∃ r' ∈ dedupRefs refs seen, r'.target_doc_id = r.target_doc_id := by
  intro refs
  induction refs with
  | nil => intro seen r hr; simp at hr
  | cons a rest ih =>
    intro seen r hr hnot
    by_cases ha : a.target_doc_id ∈ seen
    · rw [dedupRefs, if_pos ha]
      rcases List.mem_cons.mp hr with heq | hmem
      · subst heq; exact absurd ha hnot
      · exact ih seen r hmem hnot
    · rw [dedupRefs, if_neg ha]
      by_cases htar : r.target_doc_id = a.target_doc_id
      · exact ⟨a, List.mem_cons_self _ _, htar.symm⟩
      · rcases List.mem_cons.mp hr with heq | hmem
        · subst heq; exact absurd rfl htar
        · obtain ⟨r', hr', htar'⟩ := ih _ r hmem (by
            intro hc
            rcases List.mem_cons.mp hc with h | h
            · exact htar h
            · exact hnot h)
          exact ⟨r', List.mem_cons_of_mem _ hr', htar'⟩

/-- Unfolding step: the candidate loop accepts `doc` through the fuzzy
branch. -/
theorem findRef_cons_fuzzy (ratio : String → String → ℚ) (m : String)
    (doc : DocInfo) (rest : List DocInfo)
    (h : 7/10 < ratio (pyLower (pyStrip m)) (stripExtension (pyLower doc.filename))) :
    findRefForMention ratio m (doc :: rest) =
      some { target_doc_id := doc.doc_id, citation_text := m,
             similarity := ratio (pyLower (pyStrip m))
               (stripExtension (pyLower doc.filename)) } := by
  simp only [findRefForMention]
  rw [if_pos h]

/-- Unfolding step: the candidate loop rejects `doc` (fuzzy similarity not
above 0.7 and no substring containment) and moves on. -/
theorem findRef_cons_skip (ratio : String → String → ℚ) (m : String)
    (doc : DocInfo) (rest : List DocInfo)
    (h1 : ¬ 7/10 < ratio (pyLower (pyStrip m)) (stripExtension (pyLower doc.filename)))
    (h2 : (containsSeq (pyLower (pyStrip m)).data
              (stripExtension (pyLower doc.filename)).data
            || containsSeq (stripExtension (pyLower doc.filename)).data
              (pyLower (pyStrip m)).data) = false) :
    findRefForMention ratio m (doc :: rest) = findRefForMention ratio m rest := by
  simp only [findRefForMention]
  rw [if_neg h1, if_neg (by simp [h2])]

/-- The in-source fallback ratio of two equal 12-character strings is 1. -/
theorem fallbackRatio_alpha :
    fallbackRatio (pyLower (pyStrip "alpha manual"))
      (stripExtension (pyLower "alpha manual.pdf")) = 1 := by
  show fallbackRatio "alpha manual" "alpha manual" = 1
  unfold fallbackRatio
  rw [if_neg (by decide)]
  rw [show ("alpha manual".length) = 12 from rfl]
  norm_num

/-- The fuzzy loop accepts the first `alpha manual` candidate whatever
follows it. -/
theorem findRef_alpha (rest : List DocInfo) :
    findRefForMention fallbackRatio "alpha manual"
        (⟨"d1", "alpha manual.pdf"⟩ :: rest) =
      some ⟨"d1", "alpha manual", 1⟩ := by
  rw [findRef_cons_fuzzy fallbackRatio "alpha manual" ⟨"d1", "alpha manual.pdf"⟩ rest
    (by rw [fallbackRatio_alpha]; norm_num)]
  rw [fallbackRatio_alpha]

/-- The in-source fallback ratio of a 7- and a 10-character string with
nothing in common is exactly 0.7. -/
theorem fallbackRatio_zzz :
    fallbackRatio (pyLower (pyStrip "zzzzzzz"))
      (stripExtension (pyLower "abcdefghij.pdf")) = 7/10 := by
  show fallbackRatio "zzzzzzz" "abcdefghij" = 7/10
  unfold fallbackRatio
  rw [if_neg (by decide)]
  rw [show ("zzzzzzz".length) = 7 from rfl, show ("abcdefghij".length) = 10 from rfl]
  norm_num

/-- C8 counterexample: (a) a mention that matches two candidate documents
with similarity 1 ≥ 0.7 produces a relationship only to the first (the
source `break`s after the first match), so "a citation relationship to
that document is produced" fails for the second candidate; (b) the
threshold is strict: a mention/filename pair at similarity exactly 0.7
with no substring containment produces nothing. -/
theorem C8_counterexample :
    fallbackRatio "alpha manual" "alpha manual" = 1 ∧
    ((7 : ℚ)/10 ≤ 1) ∧
    (detectExplicitReferences fallbackRatio ["alpha manual"]
        [⟨"d1", "alpha manual.pdf"⟩, ⟨"d2", "alpha manual.docx"⟩]).map
        ExplicitRef.target_doc_id = ["d1"] ∧
    fallbackRatio "zzzzzzz" "abcdefghij" = 7/10 ∧
    detectExplicitReferences fallbackRatio ["zzzzzzz"] [⟨"d3", "abcdefghij.pdf"⟩] = [] := by
  refine ⟨fallbackRatio_alpha, by norm_num, ?_, fallbackRatio_zzz, ?_⟩
  · rw [show detectExplicitReferences fallbackRatio ["alpha manual"]
        [⟨"d1", "alpha manual.pdf"⟩, ⟨"d2", "alpha manual.docx"⟩]
        = dedupRefs (["alpha manual"].filterMap (fun m => findRefForMention
            fallbackRatio m [⟨"d1", "alpha manual.pdf"⟩, ⟨"d2", "alpha manual.docx"⟩])) []
        from rfl]
    rw [show (["alpha manual"].filterMap (fun m => findRefForMention
          fallbackRatio m [⟨"d1", "alpha manual.pdf"⟩, ⟨"d2", "alpha manual.docx"⟩]))
        = [⟨"d1", "alpha manual", 1⟩] by
      simp [findRef_alpha [⟨"d2", "alpha manual.docx"⟩]]]
    rfl
  · rw [show detectExplicitReferences fallbackRatio ["zzzzzzz"]
        [⟨"d3", "abcdefghij.pdf"⟩]
        = dedupRefs (["zzzzzzz"].filterMap (fun m => findRefForMention
            fallbackRatio m [⟨"d3", "abcdefghij.pdf"⟩])) [] from rfl]
    rw [show (["zzzzzzz"].filterMap (fun m => findRefForMention
          fallbackRatio m [⟨"d3", "abcdefghij.pdf"⟩])) = [] by
      simp only [List.filterMap]
      rw [findRef_cons_skip fallbackRatio "zzzzzzz" ⟨"d3", "abcdefghij.pdf"⟩ []
        (by rw [fallbackRatio_zzz]; norm_num) (by decide)]
      rfl]
    rfl

/-- C8 (amended): in explicit-citation detection, each matched mention
produces a citation to the *first* candidate document (in list order)
whose extension-stripped filename matches it — fuzzy similarity strictly
above 0.7, or substring containment either way; the resulting
relationships are deduplicated to at most one per target document and
each carries strength 1.0. -/
theorem C8_explicit_citations (ratio : String → String → ℚ) (doc_id : String)
    (mentions : List String) (docs : List DocInfo) :
    (∀ rel ∈ explicitRelationships doc_id (detectExplicitReferences ratio mentions docs),
        rel.strength = 1 ∧ rel.relationship_type = "explicit_citation" ∧
        rel.source_doc_id = doc_id) ∧
    ((explicitRelationships doc_id (detectExplicitReferences ratio mentions docs)).map
        DocumentRelationship.target_doc_id).Nodup ∧
    (∀ m ∈ mentions, ∀ ref, findRefForMention ratio m docs = some ref →
        ∃ rel ∈ explicitRelationships doc_id (detectExplicitReferences ratio mentions docs),
          rel.target_doc_id = ref.target_doc_id) ∧
    (∀ rel ∈ explicitRelationships doc_id (detectExplicitReferences ratio mentions docs),
        ∃ m ∈ mentions, ∃ ref, findRefForMention ratio m docs = some ref ∧
          ref.target_doc_id = rel.target_doc_id) := by
  refine ⟨?_, ?_, ?_, ?_⟩
  · intro rel hrel
    obtain ⟨ref, _, hmk⟩ := List.mem_map.mp hrel
    rw [← hmk]
    exact ⟨rfl, rfl, rfl⟩
  · have hmap : (explicitRelationships doc_id
        (detectExplicitReferences ratio mentions docs)).map
          DocumentRelationship.target_doc_id =
        (detectExplicitReferences ratio mentions docs).map ExplicitRef.target_doc_id := by
      simp [explicitRelationships]
    rw [hmap]
    exact dedupRefs_targets_nodup _ []
  · intro m hm ref href
    have hmem : ref ∈ mentions.filterMap (fun m => findRefForMention ratio m docs) :=
      List.mem_filterMap.mpr ⟨m, hm, href⟩
    obtain ⟨r', hr', htar⟩ := dedupRefs_covers _ [] ref hmem (by simp)
    refine ⟨{ source_doc_id := doc_id, target_doc_id := r'.target_doc_id,
              relationship_type := "explicit_citation", strength := 1 }, ?_, htar⟩
    exact List.mem_map.mpr ⟨r', hr', rfl⟩
  · intro rel hrel
    obtain ⟨ref, href, hmk⟩ := List.mem_map.mp hrel
    have hmem := (mem_of_mem_dedupRefs _ [] ref href).1
    obtain ⟨m, hm, hfind⟩ := List.mem_filterMap.mp hmem
    exact ⟨m, hm, ref, hfind, by rw [← hmk]⟩

/-- C8 witness: the amended first-match behaviour at a concrete input. -/
theorem C8_witness :
    ∃ rel ∈ explicitRelationships "new"
        (detectExplicitReferences fallbackRatio ["alpha manual"]
          [⟨"d1", "alpha manual.pdf"⟩]),
      rel.target_doc_id = "d1" := by
  have h := (C8_explicit_citations fallbackRatio "new" ["alpha manual"]
    [⟨"d1", "alpha manual.pdf"⟩]).2.2.1 "alpha manual" (by simp)
    ⟨"d1", "alpha manual", 1⟩ (findRef_alpha [])
  simpa using h

/-- C1: the claim says every chunk returned by
`SemanticChunker.chunk_document` has `token_count ≤ max_tokens`, even for
a single run without whitespace whose token count exceeds the ceiling.
The code violates this: `_split_large_text` cannot split a single word
(its word loop puts the whole run into one piece), `_enforce_max_tokens`
merely calls `_split_large_text` again, and `_validate_and_log_statistics`
only logs.  With `target_tokens = 3`, `max_tokens = 5` and a single text
element `"aaaaaa"` (6 tokens under the one-token-per-character encoder),
the returned chunk list consists of one chunk of 6 > 5 tokens. -/
theorem C1_token_ceiling_violated :
    ((chunkDocumentElements ⟨3, 5, 0, 1⟩ charEncoder
        [{ kind := .textE, text := "aaaaaa" }] "d" "u" "f.pdf").map
        ChunkMetadata.token_count) = [6] ∧
    (⟨3, 5, 0, 1⟩ : ChunkerConfig).max_tokens < 6 := by
  exact ⟨by decide, by decide⟩

/-- The count stored for `k` in the `doc_chunk_counts` dict, 0 when
absent. -/
def lookupVal (l : List (String × Nat)) (k : String) : Nat :=
  (l.lookup k).getD 0

/-- Bumping `k` sets its stored count to one more than before. -/
theorem bumpCount_lookup_self (acc : List (String × Nat)) (k : String) :
    (docChunkCounts.bumpCount acc k).lookup k = some (lookupVal acc k + 1) := by
  induction acc with
  | nil => simp [docChunkCounts.bumpCount, lookupVal]
  | cons kv rest ih =>
    obtain ⟨k', n⟩ := kv
    by_cases h : k' = k
    · subst h
      simp [docChunkCounts.bumpCount, lookupVal, List.lookup]
    · have hb : (k == k') = false := by
        simpa using fun hh => h hh.symm
      simp [docChunkCounts.bumpCount, if_neg h, List.lookup, hb, lookupVal, ih]

/-- Bumping `k` leaves every other key's stored count unchanged. -/
theorem bumpCount_lookup_ne (acc : List (String × Nat)) (k k' : String)
    (h : k' ≠ k) :
    (docChunkCounts.bumpCount acc k).lookup k' = acc.lookup k' := by
  have hb : (k' == k) = false := by simpa using h
  induction acc with
  | nil => simp [docChunkCounts.bumpCount, List.lookup, hb]
  | cons kv rest ih =>
    obtain ⟨k'', n⟩ := kv
    by_cases hk : k'' = k
    · subst hk
      simp [docChunkCounts.bumpCount, List.lookup, hb]
    · simp only [docChunkCounts.bumpCount, if_neg hk, List.lookup]
      cases hbe : (k' == k'') with
      | true => rfl
      | false => exact ih

/-- Bumping `k` appends `k` to the key list when new, else keeps it. -/
theorem bumpCount_keys (acc : List (String × Nat)) (k : String) :
    (docChunkCounts.bumpCount acc k).map Prod.fst =
      if k ∈ acc.map Prod.fst then acc.map Prod.fst
      else acc.map Prod.fst ++ [k] := by
  induction acc with
  | nil => simp [docChunkCounts.bumpCount]
  | cons kv rest ih =>
    obtain ⟨k', n⟩ := kv
    by_cases h : k' = k
    · subst h
      simp [docChunkCounts.bumpCount]
    · simp only [docChunkCounts.bumpCount, if_neg h, List.map_cons, ih]
      by_cases hk : k ∈ rest.map Prod.fst
      · rw [if_pos hk, if_pos (by exact List.mem_cons_of_mem _ hk)]
      · rw [if_neg hk, if_neg (by
          intro hc
          rcases List.mem_cons.mp hc with heq | hmem
          · exact h heq.symm
          · exact hk hmem)]
        rfl

/-- Characterization of the `doc_chunk_counts` fold: final counts are the
initial counts plus the per-document non-graph chunk counts, key lists
stay duplicate-free, and the final keys are the initial keys plus the
non-graph documents. -/
theorem docChunkCounts_spec :
    ∀ (chunks : List GChunk) (acc : List (String × Nat)),
      (∀ k, lookupVal (docChunkCounts chunks acc) k =
        lookupVal acc k + (nonGraph chunks).countP (fun c => c.doc_id == k)) ∧
      ((acc.map Prod.fst).Nodup → ((docChunkCounts chunks acc).map Prod.fst).Nodup) ∧
      (∀ k, k ∈ (docChunkCounts chunks acc).map Prod.fst ↔
        k ∈ acc.map Prod.fst ∨ k ∈ (nonGraph chunks).map GChunk.doc_id) := by
  intro chunks
  induction chunks with
  | nil =>
    intro acc
    refine ⟨fun k => ?_, fun h => ?_, fun k => ?_⟩ <;>
      simp [docChunkCounts, nonGraph]
    exact h
  | cons c rest ih =>
    intro acc
    by_cases hg : c.source = "graph"
    · have hng : nonGraph (c :: rest) = nonGraph rest := by
        simp [nonGraph, List.filter_cons, hg]
      rw [show docChunkCounts (c :: rest) acc = docChunkCounts rest acc by
        simp [docChunkCounts, hg], hng]
      exact ih acc
    · have hng : nonGraph (c :: rest) = c :: nonGraph rest := by
        simp [nonGraph, List.filter_cons, hg]
      rw [show docChunkCounts (c :: rest) acc =
            docChunkCounts rest (docChunkCounts.bumpCount acc c.doc_id) by
        simp [docChunkCounts, hg], hng]
      obtain ⟨ih1, ih2, ih3⟩ := ih (docChunkCounts.bumpCount acc c.doc_id)
      refine ⟨?_, ?_, ?_⟩
      · intro k
        rw [ih1 k, List.countP_cons]
        by_cases hk : c.doc_id = k
        · subst hk
          have hlv : lookupVal (docChunkCounts.bumpCount acc c.doc_id) c.doc_id =
              lookupVal acc c.doc_id + 1 := by
            rw [lookupVal, bumpCount_lookup_self]
            rfl
          rw [hlv]
          simp
          omega
        · have hlv : lookupVal (docChunkCounts.bumpCount acc c.doc_id) k =
              lookupVal acc k := by
            rw [lookupVal, bumpCount_lookup_ne acc c.doc_id k
              (fun hh => hk hh.symm)]
            rfl
          rw [hlv]
          have hb : (c.doc_id == k) = false := by simpa using hk
          simp [hb]
      · intro hnodup
        apply ih2
        rw [bumpCount_keys]
        by_cases hk : c.doc_id ∈ acc.map Prod.fst
        · rw [if_pos hk]; exact hnodup
        · rw [if_neg hk]
          refine List.Nodup.append hnodup (List.nodup_singleton _) ?_
          intro a ha ha'
          have haa : a = c.doc_id := by simpa using ha'
          exact hk (haa ▸ ha)
      · intro k
        rw [ih3 k, bumpCount_keys]
        by_cases hk : c.doc_id ∈ acc.map Prod.fst
        · rw [if_pos hk]
          simp only [List.map_cons, List.mem_cons]
          constructor
          · intro h
            tauto
          · rintro (h | h | h)
            · tauto
            · exact Or.inl (h ▸ hk)
            · tauto
        · rw [if_neg hk]
          simp only [List.mem_append, List.mem_cons, List.map_cons,
            List.not_mem_nil, or_false]
          tauto

/-- With duplicate-free keys, a stored pair is what lookup returns. -/
theorem lookup_of_mem_nodup :
    ∀ (l : List (String × Nat)), (l.map Prod.fst).Nodup →
      ∀ k v, (k, v) ∈ l → l.lookup k = some v := by
  intro l
  induction l with
  | nil => intro _ k v h; simp at h
  | cons kv rest ih =>
    intro hnd k v hm
    obtain ⟨k', n⟩ := kv
    simp only [List.map_cons, List.nodup_cons] at hnd
    rcases List.mem_cons.mp hm with heq | hmem
    · injection heq with h1 h2
      subst h1
      subst h2
      simp [List.lookup]
    · have hk2 : (k == k') = false := by
        simp only [beq_eq_false_iff_ne, ne_eq]
        intro h
        subst h
        exact hnd.1 (List.mem_map.mpr ⟨(k, v), hmem, rfl⟩)
      simp only [List.lookup, hk2]
      exact ih hnd.2 k v hmem

/-- With duplicate-free keys, filtering entries by a predicate on the
stored count is the same as filtering the key list by that predicate on
the looked-up count. -/
theorem filter_length_eq_keys (p : Nat → Bool) :
    ∀ (l : List (String × Nat)), (l.map Prod.fst).Nodup →
      (l.filter (fun kv => p kv.2)).length =
      ((l.map Prod.fst).filter (fun k => p (lookupVal l k))).length := by
  intro l
  induction l with
  | nil => intro _; simp
  | cons kv rest ih =>
    intro hnd
    obtain ⟨k', n⟩ := kv
    simp only [List.map_cons, List.nodup_cons] at hnd
    have hhead : lookupVal ((k', n) :: rest) k' = n := by
      simp [lookupVal, List.lookup]
    have htail : ∀ k ∈ rest.map Prod.fst,
        lookupVal ((k', n) :: rest) k = lookupVal rest k := by
      intro k hk
      have hne : (k == k') = false := by
        simp only [beq_eq_false_iff_ne, ne_eq]
        intro h
        exact hnd.1 (h ▸ hk)
      simp [lookupVal, List.lookup, hne]
    rw [List.filter_cons, List.map_cons, List.filter_cons, hhead]
    have hcongr : (rest.map Prod.fst).filter
          (fun k => p (lookupVal ((k', n) :: rest) k)) =
        (rest.map Prod.fst).filter (fun k => p (lookupVal rest k)) := by
      apply List.filter_congr
      intro k hk
      rw [htail k hk]
    rw [hcongr]
    cases hpn : p n with
    | true => simp [hpn, ih hnd.2]
    | false => simp [hpn, ih hnd.2]

/-- C6: `should_activate_synthesis_mode` returns true exactly when, after
excluding chunks whose source tag is `graph`, at least 2 distinct
documents each contribute at least 2 chunks; in particular documents
A(3 chunks)/B(1 chunk) give false, A(2)/B(2) give true, and A(2)/B(2)
all tagged graph-sourced give false. -/
theorem C6_synthesis_activation (chunks : List GChunk) :
    (shouldActivateSynthesisMode chunks = true ↔
      2 ≤ (((nonGraph chunks).map GChunk.doc_id).dedup.filter
        (fun d => 2 ≤ (nonGraph chunks).countP (fun c => c.doc_id == d))).length) ∧
    shouldActivateSynthesisMode
      [⟨"A", "", "", ""⟩, ⟨"A", "", "", ""⟩, ⟨"A", "", "", ""⟩, ⟨"B", "", "", ""⟩]
      = false ∧
    shouldActivateSynthesisMode
      [⟨"A", "", "", ""⟩, ⟨"A", "", "", ""⟩, ⟨"B", "", "", ""⟩, ⟨"B", "", "", ""⟩]
      = true ∧
    shouldActivateSynthesisMode
      [⟨"A", "graph", "", ""⟩, ⟨"A", "graph", "", ""⟩, ⟨"B", "graph", "", ""⟩,
       ⟨"B", "graph", "", ""⟩] = false := by
  refine ⟨?_, by decide, by decide, by decide⟩
  by_cases hempty : chunks.isEmpty
  · have : chunks = [] := by
      cases chunks with
      | nil => rfl
      | cons a as => simp [List.isEmpty] at hempty
    subst this
    simp [shouldActivateSynthesisMode, nonGraph]
  · obtain ⟨h1, h2, h3⟩ := docChunkCounts_spec chunks []
    have hnodup : ((docChunkCounts chunks []).map Prod.fst).Nodup := h2 (by simp)
    have hsa : shouldActivateSynthesisMode chunks =
        decide (2 ≤ ((docChunkCounts chunks []).filter
          (fun kv => decide (2 ≤ kv.2))).length) := by
      simp only [shouldActivateSynthesisMode, hempty, Bool.false_eq_true, if_false]
    rw [hsa, decide_eq_true_iff]
    have hlen := filter_length_eq_keys (fun v => decide (2 ≤ v))
      (docChunkCounts chunks []) hnodup
    rw [hlen]
    have hvals : ∀ k, lookupVal (docChunkCounts chunks []) k =
        (nonGraph chunks).countP (fun c => c.doc_id == k) := by
      intro k
      rw [h1 k]
      simp [lookupVal]
    have hcongr : ((docChunkCounts chunks []).map Prod.fst).filter
          (fun k => decide (2 ≤ lookupVal (docChunkCounts chunks []) k)) =
        ((docChunkCounts chunks []).map Prod.fst).filter
          (fun k => decide (2 ≤ (nonGraph chunks).countP (fun c => c.doc_id == k))) := by
      apply List.filter_congr
      intro k _
      rw [hvals k]
    rw [hcongr]
    have hperm : ((docChunkCounts chunks []).map Prod.fst).Perm
        (((nonGraph chunks).map GChunk.doc_id).dedup) := by
      apply List.perm_of_nodup_nodup_toFinset_eq hnodup (List.nodup_dedup _)
      ext k
      simp only [List.mem_toFinset, List.mem_dedup]
      rw [h3 k]
      simp
    rw [List.Perm.length_eq (List.Perm.filter _ hperm)]

end IronMind
